import Mathlib

/-!
Verification of the request-orchestration core of the Discord ChatGPT relay
bot (src/main.py). Strings are modelled as lists of characters so that the
chunking arithmetic of the source is mirrored exactly.
-/

set_option maxHeartbeats 1000000

abbrev Chars := List Char

/-- Roles of conversation turns, as used in the message dictionaries of
src/main.py (the role field of each entry of a conversation). -/
inductive Role
  | system
  | user
  | assistant
deriving DecidableEq, Repr

/-- One part of a user message payload (src/main.py lines 364-366): either a
text part or an image-url part. -/
inductive ContentPart
  | textPart (s : Chars)
  | imageUrl (u : Chars)
deriving DecidableEq, Repr

/-- The content field of a message dictionary: the user turn carries a list of
parts, the system and assistant turns carry plain text. -/
inductive MsgContent
  | parts (ps : List ContentPart)
  | text (s : Chars)
deriving DecidableEq, Repr

/-- One message dictionary of a conversation, as appended to
channel_message_history in src/main.py. -/
structure Msg where
  role : Role
  content : MsgContent
deriving DecidableEq, Repr

/-- Embedding of collections.deque with maxlen (src/main.py line 73,
deque(maxlen=10)): appending to a full deque discards elements from the
opposite end so that the length never exceeds maxlen. -/
def dequeAppend (maxlen : Nat) (h : List Msg) (m : Msg) : List Msg :=
  if h.length < maxlen then h ++ [m]
  else (h.drop (h.length + 1 - maxlen)) ++ [m]

/-- Embedding of text.split("\n") from src/main.py line 129: Python returns
one more part than the number of newline characters, so the empty string
yields a single empty line. -/
def splitLines : Chars → List Chars
  | [] => [[]]
  | c :: rest =>
    if c = '\n' then [] :: splitLines rest
    else
      match splitLines rest with
      | [] => [[c]]
      | l :: ls => (c :: l) :: ls

/-- Embedding of the inner while loop of split_message (src/main.py lines
141-144): repeatedly take limit characters off the front of a long line. The
fuel argument bounds the number of iterations; since each iteration removes
limit characters and the loop only runs while 0 < limit < length, a fuel of
the initial line length is always sufficient. (For limit = 0 the Python loop
does not terminate; every claim below assumes a positive limit.) -/
def hardSplitF : Nat → Nat → Chars → List Chars × Chars
  | 0, _, line => ([], line)
  | fuel + 1, limit, line =>
    if 0 < limit ∧ limit < line.length then
      let r := hardSplitF fuel limit (line.drop limit)
      (line.take limit :: r.1, r.2)
    else ([], line)

/-- The while loop of src/main.py lines 141-144 run to completion: returns the
list of emitted limit-sized pieces and the remaining tail of the line. -/
def hardSplit (limit : Nat) (line : Chars) : List Chars × Chars :=
  hardSplitF line.length limit line

/-- Embedding of the for loop of split_message (src/main.py lines 132-151),
processing the remaining lines with the accumulated chunks and the current
chunk. Follows the source turn for turn: if adding the next line would exceed
the limit, flush the current chunk when it is nonempty, otherwise hard-split
the long line; else append the line to the current chunk with a newline when
the current chunk is nonempty. After the loop the current chunk is appended
when nonempty. -/
def splitLoop (limit : Nat) : List Chars → List Chars → Chars → List Chars
  | [], chunks, current =>
    if current ≠ [] then chunks ++ [current] else chunks
  | line :: rest, chunks, current =>
    if current.length + line.length + 1 > limit then
      if current ≠ [] then
        splitLoop limit rest (chunks ++ [current]) line
      else
        splitLoop limit rest (chunks ++ (hardSplit limit line).1)
          (hardSplit limit line).2
    else
      splitLoop limit rest chunks
        (if current ≠ [] then current ++ '\n' :: line else line)

/-- Embedding of split_message (src/main.py lines 112-153): text within the
limit is returned as a single chunk; otherwise the text is split at newlines
and accumulated by splitLoop. -/
def split_message (text : Chars) (limit : Nat) : List Chars :=
  if text.length ≤ limit then [text]
  else splitLoop limit (splitLines text) [] []

example : split_message ['a', 'b', '\n', 'c', 'd', 'e', 'f'] 3
    = [['a', 'b'], ['c', 'd', 'e', 'f']] := by decide

example : split_message ['a', '\n'] 1 = [['a']] := by decide

example : split_message ['a', 'b'] 3 = [['a', 'b']] := by decide

/-- Kinds of exceptions the completion service can raise, following the
taxonomy of the specification (rate limit, transient service error, unknown
transient, fatal). In src/main.py all of these reach the same handler, the
catch-all except clause of generate_ai_response (lines 199-201). -/
inductive ErrKind
  | rateLimited
  | transientServiceError
  | unknownTransient
  | fatal
deriving DecidableEq, Repr

/-- Outcome of one invocation of openai.chat.completions.create: either an
exception of some kind, or a response carrying its list of choices (each
choice reduced to the text of its message content). -/
inductive ServiceOutcome
  | raises (e : ErrKind)
  | returns (choices : List Chars)
deriving DecidableEq, Repr

/-- Embedding of generate_ai_response (src/main.py lines 174-201). The
external completion service is a parameter mapping the conversation payload
to its outcome. The function makes a single call: an exception is caught by
the catch-all handler and mapped to the empty string (lines 199-201); a
response with no choices is mapped to the empty string (lines 193-195);
otherwise the content of the first choice is returned (line 196). The second
component counts the number of service invocations performed. -/
def generate_ai_response (service : List Msg → ServiceOutcome)
    (conversation : List Msg) : Chars × Nat :=
  match service conversation with
  | ServiceOutcome.raises _ => ([], 1)
  | ServiceOutcome.returns [] => ([], 1)
  | ServiceOutcome.returns (c :: _) => (c, 1)

/-- The system prompt inserted at position 0 of the conversation copy when it
is absent (src/main.py lines 373-386). The exact wording is irrelevant to
every claim; the marker content below stands for the literal of the source. -/
def systemMsg : Msg :=
  { role := Role.system, content := MsgContent.text ['s', 'y', 's'] }

/-- Embedding of the conversation assembly of on_message_create (src/main.py
lines 368-393): copy the stored history, insert the system prompt at the
front when the history is empty or does not start with a system turn, append
the referenced assistant message when the trigger was a reply to the bot, and
append the new user turn. -/
def buildConversation (history : List Msg) (isReplyToBot : Bool)
    (referenced : Option Chars) (userParts : List ContentPart) : List Msg :=
  let conv :=
    match history with
    | [] => [systemMsg]
    | m :: _ => if m.role = Role.system then history else systemMsg :: history
  let conv :=
    match isReplyToBot, referenced with
    | true, some r => conv ++ [{ role := Role.assistant, content := MsgContent.text r }]
    | _, _ => conv
  conv ++ [{ role := Role.user, content := MsgContent.parts userParts }]

/-- A message sent back to the channel by the dispatch path of
on_message_create: the fallback notice of line 410, the first reply chunk
(sent with reply_to, line 417), or a follow-up chunk (line 419). -/
inductive Sent
  | fallbackNotice
  | chunkReply (c : Chars)
  | chunk (c : Chars)
deriving DecidableEq, Repr

/-- The chunk-sending loop of src/main.py lines 415-419: the first chunk is
sent as a reply, the rest as plain messages. -/
def sendChunks : List Chars → List Sent
  | [] => []
  | c :: rest => Sent.chunkReply c :: rest.map Sent.chunk

/-- Result of one dispatch: the messages sent to the channel and the stored
conversation history for the key after the dispatch. -/
structure DispatchOut where
  sent : List Sent
  history : List Msg
deriving DecidableEq, Repr

/-- Embedding of the dispatch core of on_message_create (src/main.py lines
368-423): build the conversation, call generate_ai_response, and either send
the fallback notice leaving the stored history untouched (lines 409-411), or
send the chunks of the reply and append the user turn and the assistant turn
to the bounded history (lines 414-423). -/
def dispatch (service : List Msg → ServiceOutcome) (history : List Msg)
    (isReplyToBot : Bool) (referenced : Option Chars)
    (userParts : List ContentPart) : DispatchOut :=
  let conversation := buildConversation history isReplyToBot referenced userParts
  let reply := (generate_ai_response service conversation).1
  if reply = [] then
    { sent := [Sent.fallbackNotice], history := history }
  else
    { sent := sendChunks (split_message reply 2000),
      history :=
        dequeAppend 10
          (dequeAppend 10 history
            { role := Role.user, content := MsgContent.parts userParts })
          { role := Role.assistant, content := MsgContent.text reply } }

/-- Observable actions of one dispatch, in program order, used to state
properties about which effects on_message_create performs and in which
order. -/
inductive Act
  | acquireGate
  | releaseGate
  | startSignaler
  | notify
  | stopSignaler
  | callService
  | sendFallback
  | sendChunkReply (c : Chars)
  | sendChunk (c : Chars)
  | appendUser
  | appendAssistant
deriving DecidableEq, Repr

/-- The send loop of lines 415-419 at the level of actions. -/
def sendActs : List Chars → List Act
  | [] => []
  | c :: rest => Act.sendChunkReply c :: rest.map Act.sendChunk

/-- The effect trace of the dispatch core of on_message_create (src/main.py
lines 395-423): the typing-indicator task is started (line 396), the outbound
call is awaited (line 399) while the indicator fires some number of ticks,
the task is cancelled and awaited (lines 402-406), and then either the
fallback notice is sent or the chunks are sent and the two history appends
happen. The source contains no admission gate, so no acquire or release
action occurs anywhere in the trace. -/
def dispatchTrace (service : List Msg → ServiceOutcome) (history : List Msg)
    (isReplyToBot : Bool) (referenced : Option Chars)
    (userParts : List ContentPart) (ticks : Nat) : List Act :=
  let conversation := buildConversation history isReplyToBot referenced userParts
  let reply := (generate_ai_response service conversation).1
  [Act.startSignaler, Act.callService] ++ List.replicate ticks Act.notify
    ++ [Act.stopSignaler]
    ++ (if reply = [] then [Act.sendFallback]
        else sendActs (split_message reply 2000) ++ [Act.appendUser, Act.appendAssistant])

/-- Kinds of exceptions the typing callback channel.trigger_typing can raise;
none of these is asyncio.CancelledError. -/
inductive ExcKind
  | networkError
  | apiError
deriving DecidableEq, Repr

/-- How the typing_indicator loop of src/main.py lines 155-172 terminates:
either the cancellation is delivered at an await point and caught by the
except clause for asyncio.CancelledError (lines 170-172), or an exception of
the callback escapes the loop (no handler for it exists inside the loop). -/
inductive LoopExit
  | cancelledClean
  | raised (e : ExcKind)
deriving DecidableEq, Repr

/-- Embedding of the typing_indicator loop body (src/main.py lines 164-172)
over the sequence of per-iteration callback outcomes: none means
trigger_typing succeeded, some e means it raised e. Cancellation is delivered
once the listed iterations are exhausted and is caught by the except clause;
any other exception propagates out of the coroutine at the iteration where it
occurs. -/
def typingLoopRun : List (Option ExcKind) → LoopExit
  | [] => LoopExit.cancelledClean
  | none :: rest => typingLoopRun rest
  | some e :: _ => LoopExit.raised e

/-- Formalisation of the claim wording, for comparison with the code: the
loop swallows every error of the notify callback, i.e. it never ends by
propagating an exception. -/
def swallowsNotifyErrors : Prop :=
  ∀ ticks : List (Option ExcKind), typingLoopRun ticks = LoopExit.cancelledClean

example : typingLoopRun [none, some ExcKind.networkError] =
    LoopExit.raised ExcKind.networkError := by decide

/-- Status of the typing-indicator task on the event loop: running the while
loop, cancellation requested by typing_task.cancel() but not yet delivered,
or finished (the coroutine has returned after the CancelledError was caught
at lines 170-172). -/
inductive TStat
  | running
  | cancelRequested
  | finished
deriving DecidableEq, Repr

/-- Joint state of the typing task and the dispatcher awaiting it: the task
status, and whether the await of line 404 has returned to the dispatcher. -/
structure SigSt where
  typing : TStat
  stopReturned : Bool
deriving DecidableEq, Repr

/-- Scheduler events of the cancellation protocol of src/main.py lines
164-172 and 402-406: the task fires one typing notification; the dispatcher
calls cancel(); the event loop delivers the cancellation at the next await
point and the coroutine finishes; the await of the task returns to the
dispatcher. -/
inductive SigAct
  | notifyTick
  | cancelCall
  | cancelDelivered
  | stopReturn
deriving DecidableEq, Repr

/-- One scheduler step of the cancellation protocol. Each event is only
enabled in the status that asyncio permits it in: a task fires notifications
only while running; cancel() marks a running task; the cancellation is
delivered to a marked task, finishing it; and awaiting the task returns only
once the coroutine has finished. A finished task never runs again. -/
def sigStep (s : SigSt) : SigAct → Option SigSt
  | SigAct.notifyTick =>
    if s.typing = TStat.running then some s else none
  | SigAct.cancelCall =>
    if s.typing = TStat.running then some { s with typing := TStat.cancelRequested }
    else none
  | SigAct.cancelDelivered =>
    if s.typing = TStat.cancelRequested then some { s with typing := TStat.finished }
    else none
  | SigAct.stopReturn =>
    if s.typing = TStat.finished then some { s with stopReturned := true }
    else none

/-- Run a sequence of scheduler events from a state; the run fails when an
event occurs in a status that does not enable it. -/
def sigExec : SigSt → List SigAct → Option SigSt
  | s, [] => some s
  | s, a :: rest =>
    match sigStep s a with
    | none => none
    | some t => sigExec t rest

/-- The initial state of one dispatch: the typing task is running and the
dispatcher has not yet awaited it. -/
def sigInit : SigSt := { typing := TStat.running, stopReturned := false }

/-- Spec-side predicate, written from the specification wording of the
chunker invariant: the chunk list reproduces the text when the chunks are
concatenated in order, re-inserting at each chunk boundary the separator
that was used to split there — a newline for a boundary made at a line
break, nothing for a boundary made by hard-splitting inside a line. -/
inductive Joins : List Chars → Chars → Prop
  | single (c : Chars) : Joins [c] c
  | cons (c sep : Chars) {cs : List Chars} {t : Chars}
      (hsep : sep = [] ∨ sep = ['\n']) (h : Joins cs t) :
      Joins (c :: cs) (c ++ sep ++ t)

/-- Join a list of lines back with newline separators, the inverse of
splitLines. -/
def joinNL : List Chars → Chars
  | [] => []
  | [l] => l
  | l :: ls => l ++ '\n' :: joinNL ls

theorem joinNL_cons (a : Chars) {ls : List Chars} (h : ls ≠ []) :
    joinNL (a :: ls) = a ++ '\n' :: joinNL ls := by
  cases ls with
  | nil => exact absurd rfl h
  | cons b bs => rfl

theorem joinNL_head_cons (c : Char) (l : Chars) (ls : List Chars) :
    joinNL ((c :: l) :: ls) = c :: joinNL (l :: ls) := by
  cases ls with
  | nil => rfl
  | cons b bs => simp [joinNL]

theorem joinNL_glue (a b : Chars) (ls : List Chars) :
    joinNL ((a ++ '\n' :: b) :: ls) = a ++ '\n' :: joinNL (b :: ls) := by
  cases ls with
  | nil => rfl
  | cons r rs => simp [joinNL]

theorem splitLines_ne_nil (t : Chars) : splitLines t ≠ [] := by
  induction t with
  | nil => simp [splitLines]
  | cons c rest ih =>
    simp only [splitLines]
    split_ifs with h
    · simp
    · rcases hs : splitLines rest with _ | ⟨l, ls⟩
      · simp
      · simp

theorem joinNL_splitLines (t : Chars) : joinNL (splitLines t) = t := by
  induction t with
  | nil => rfl
  | cons c rest ih =>
    simp only [splitLines]
    split_ifs with h
    · subst h
      rw [joinNL_cons _ (splitLines_ne_nil rest), ih]
      rfl
    · rcases hs : splitLines rest with _ | ⟨l, ls⟩
      · exact absurd hs (splitLines_ne_nil rest)
      · rw [hs] at ih
        rw [joinNL_head_cons, ih]

theorem hardSplitF_join (fuel limit : Nat) (line : Chars) :
    ((hardSplitF fuel limit line).1).flatten ++ (hardSplitF fuel limit line).2
      = line := by
  induction fuel generalizing line with
  | zero => simp [hardSplitF]
  | succ fuel ih =>
    simp only [hardSplitF]
    split_ifs with h
    · simp [List.flatten, List.append_assoc, ih (line.drop limit)]
    · simp

theorem hardSplitF_snd_ne (fuel limit : Nat) (line : Chars) (h : line ≠ []) :
    (hardSplitF fuel limit line).2 ≠ [] := by
  induction fuel generalizing line with
  | zero => simpa [hardSplitF] using h
  | succ fuel ih =>
    simp only [hardSplitF]
    split_ifs with hg
    · exact ih (line.drop limit) (by
        intro hdrop
        rw [List.drop_eq_nil_iff] at hdrop
        omega)
    · exact h

theorem hardSplit_join (limit : Nat) (line : Chars) :
    ((hardSplit limit line).1).flatten ++ (hardSplit limit line).2 = line :=
  hardSplitF_join _ _ _

theorem hardSplit_snd_ne (limit : Nat) (line : Chars) (h : line ≠ []) :
    (hardSplit limit line).2 ≠ [] :=
  hardSplitF_snd_ne _ _ _ h

theorem Joins_prepend (ps : List Chars) {cs : List Chars} {t : Chars}
    (h : Joins cs t) : Joins (ps ++ cs) (ps.flatten ++ t) := by
  induction ps with
  | nil => simpa using h
  | cons p ps ih =>
    have hc := Joins.cons p [] (Or.inl rfl) ih
    simpa [List.append_assoc] using hc

theorem splitLoop_append (limit : Nat) (lines : List Chars) :
    ∀ chunks cur, splitLoop limit lines chunks cur
      = chunks ++ splitLoop limit lines [] cur := by
  induction lines with
  | nil =>
    intro chunks cur
    simp only [splitLoop]
    split_ifs <;> simp
  | cons line rest ih =>
    intro chunks cur
    simp only [splitLoop]
    split_ifs with h1 h2 h3
    · rw [ih (chunks ++ [cur]) line, ih ([] ++ [cur]) line]
      simp
    · rw [ih (chunks ++ (hardSplit limit line).1) (hardSplit limit line).2,
          ih ([] ++ (hardSplit limit line).1) (hardSplit limit line).2]
      simp
    · exact ih chunks _
    · exact ih chunks _

theorem splitLoop_joins (limit : Nat) :
    ∀ (lines : List Chars) (cur : Chars), cur ≠ [] →
      (∀ l ∈ lines, l ≠ []) →
      Joins (splitLoop limit lines [] cur) (joinNL (cur :: lines)) := by
  intro lines
  induction lines with
  | nil =>
    intro cur hcur _
    simp only [splitLoop, if_pos hcur]
    simpa [joinNL] using Joins.single cur
  | cons line rest ih =>
    intro cur hcur hlines
    have hline : line ≠ [] := hlines line (by simp)
    have hrest : ∀ l ∈ rest, l ≠ [] := fun l hm => hlines l (by simp [hm])
    simp only [splitLoop]
    split_ifs with h1
    · rw [splitLoop_append]
      have hS := ih line hline hrest
      have hc := Joins.cons cur ['\n'] (Or.inr rfl) hS
      simpa [joinNL, List.append_assoc] using hc
    · have hcur2 : cur ++ '\n' :: line ≠ [] := by simp
      have hS := ih (cur ++ '\n' :: line) hcur2 hrest
      rw [joinNL_glue] at hS
      simpa [joinNL] using hS

theorem flatten_hardSplit_joinNL (limit : Nat) (line : Chars)
    (rest : List Chars) :
    ((hardSplit limit line).1).flatten
        ++ joinNL ((hardSplit limit line).2 :: rest)
      = joinNL (line :: rest) := by
  cases rest with
  | nil => simpa [joinNL] using hardSplit_join limit line
  | cons r rs =>
    have h := hardSplit_join limit line
    calc ((hardSplit limit line).1).flatten
          ++ joinNL ((hardSplit limit line).2 :: r :: rs)
        = (((hardSplit limit line).1).flatten ++ (hardSplit limit line).2)
            ++ '\n' :: joinNL (r :: rs) := by simp [joinNL, List.append_assoc]
      _ = joinNL (line :: r :: rs) := by rw [h]; simp [joinNL]

theorem splitLoop_joins_start (limit : Nat)
    (lines : List Chars) (hne : lines ≠ [])
    (hlines : ∀ l ∈ lines, l ≠ []) :
    Joins (splitLoop limit lines [] []) (joinNL lines) := by
  cases lines with
  | nil => exact absurd rfl hne
  | cons line rest =>
    have hline : line ≠ [] := hlines line (by simp)
    have hrest : ∀ l ∈ rest, l ≠ [] := fun l hm => hlines l (by simp [hm])
    simp only [splitLoop]
    split_ifs with h1 h2 h3
    · exact absurd rfl h2
    · rw [splitLoop_append]
      have hp2 : (hardSplit limit line).2 ≠ [] := hardSplit_snd_ne limit line hline
      have hS := splitLoop_joins limit rest (hardSplit limit line).2 hp2 hrest
      have hc := Joins_prepend (hardSplit limit line).1 hS
      rw [flatten_hardSplit_joinNL] at hc
      simpa using hc
    · exact absurd rfl h3
    · exact splitLoop_joins limit rest line hline hrest

theorem sigExec_append (l1 l2 : List SigAct) :
    ∀ s, sigExec s (l1 ++ l2)
      = match sigExec s l1 with
        | none => none
        | some t => sigExec t l2 := by
  induction l1 with
  | nil => intro s; simp [sigExec]
  | cons a rest ih =>
    intro s
    simp only [List.cons_append, sigExec]
    cases sigStep s a with
    | none => rfl
    | some t => exact ih t

theorem sigExec_finished_no_notify :
    ∀ (acts : List SigAct) (s t : SigSt), s.typing = TStat.finished →
      sigExec s acts = some t → SigAct.notifyTick ∉ acts := by
  intro acts
  induction acts with
  | nil => intro s t _ _; simp
  | cons a rest ih =>
    intro s t hfin hex
    simp only [sigExec] at hex
    cases a with
    | notifyTick => simp [sigStep, hfin] at hex
    | cancelCall => simp [sigStep, hfin] at hex
    | cancelDelivered => simp [sigStep, hfin] at hex
    | stopReturn =>
      rw [sigStep, if_pos hfin] at hex
      have hnotin := ih { s with stopReturned := true } t (by simpa using hfin)
        (by simpa using hex)
      simp [hnotin]

/-- A service outcome the dispatcher treats as terminal: the call raised an
exception of some kind (fatal and retryable alike reach the catch-all handler
of src/main.py lines 199-201), or the response carried zero completion
choices (lines 193-195). -/
def isTerminalFailure : ServiceOutcome → Prop
  | ServiceOutcome.raises _ => True
  | ServiceOutcome.returns choices => choices = []

/-- The per-channel history after a sequence of append operations on one
conversation key, starting from the fresh deque of src/main.py line 73. The
code appends only user and assistant turns (lines 421-423 and 556-558). -/
def historyAfter (ops : List Msg) : List Msg :=
  ops.foldl (dequeAppend 10) []

theorem dequeAppend_length_le (h : List Msg) (m : Msg) (hle : h.length ≤ 10) :
    (dequeAppend 10 h m).length ≤ 10 := by
  unfold dequeAppend
  split_ifs with hlt
  · simp; omega
  · simp; omega

theorem dequeAppend_mem {h : List Msg} {m x : Msg}
    (hx : x ∈ dequeAppend 10 h m) : x ∈ h ∨ x = m := by
  unfold dequeAppend at hx
  split_ifs at hx
  · simpa using hx
  · rcases List.mem_append.mp hx with h1 | h2
    · exact Or.inl (List.drop_subset _ _ h1)
    · exact Or.inr (by simpa using h2)

theorem foldl_dequeAppend_inv (ops : List Msg) :
    ∀ h : List Msg, h.length ≤ 10 → (∀ m ∈ h, m.role ≠ Role.system) →
      (∀ m ∈ ops, m.role ≠ Role.system) →
      (ops.foldl (dequeAppend 10) h).length ≤ 10
      ∧ (∀ m ∈ ops.foldl (dequeAppend 10) h, m.role ≠ Role.system) := by
  induction ops with
  | nil => intro h hlen hmem _; exact ⟨hlen, hmem⟩
  | cons m ops ih =>
    intro h hlen hmem hops
    have hm : m.role ≠ Role.system := hops m (by simp)
    have hops2 : ∀ x ∈ ops, x.role ≠ Role.system :=
      fun x hx => hops x (by simp [hx])
    have hmem2 : ∀ x ∈ dequeAppend 10 h m, x.role ≠ Role.system := by
      intro x hx
      rcases dequeAppend_mem hx with h1 | h2
      · exact hmem x h1
      · rw [h2]; exact hm
    simpa using ih (dequeAppend 10 h m) (dequeAppend_length_le h m hlen) hmem2 hops2

theorem Joins_singleton {c t : Chars} (h : Joins [c] t) : t = c := by
  cases h with
  | single => rfl
  | cons c' sep hsep htail => cases htail

theorem sendActs_no_gate (l : List Chars) : Act.acquireGate ∉ sendActs l := by
  cases l with
  | nil => simp [sendActs]
  | cons c rest => simp [sendActs, List.mem_map]

/-- Claim C1, counterexample: with a completion service that fails every
attempt with a retryable rate-limit error, generate_ai_response performs
exactly one service invocation, not the three tries the claim requires. -/
theorem c1_counterexample :
    (generate_ai_response
      (fun _ => ServiceOutcome.raises ErrKind.rateLimited) []).2 = 1
    ∧ (1 : Nat) ≠ 3 := by decide

/-- Claim C1, amended: when the outbound completion call fails with an error
of any kind, generate_ai_response makes exactly one try, sleeps no backoff
delay, and surfaces the empty-string fallback result rather than any
distinguished exhausted-retries outcome. -/
theorem c1_single_attempt (e : ErrKind) (conversation : List Msg) :
    generate_ai_response (fun _ => ServiceOutcome.raises e) conversation
      = ([], 1) := rfl

/-- Claim C2: for every dispatch whose outbound call ends in a terminal
failure (an exception of any kind or a response with zero choices), the
stored conversation history is left exactly as it was (no user turn and no
assistant turn is appended) and the caller receives the single fallback
notice instead of reply chunks (src/main.py lines 408-411). -/
theorem c2_failure_leaves_history (service : List Msg → ServiceOutcome)
    (history : List Msg) (b : Bool) (ref : Option Chars)
    (parts : List ContentPart)
    (hfail : isTerminalFailure (service (buildConversation history b ref parts))) :
    dispatch service history b ref parts
      = { sent := [Sent.fallbackNotice], history := history } := by
  rcases ho : service (buildConversation history b ref parts) with e | choices
  · simp [dispatch, generate_ai_response, ho]
  · rw [ho] at hfail
    have hch : choices = [] := hfail
    subst hch
    simp [dispatch, generate_ai_response, ho]

theorem c2_failure_leaves_history_witness :
    isTerminalFailure ((fun _ => ServiceOutcome.raises ErrKind.fatal)
        (buildConversation [] false none []))
    ∧ dispatch (fun _ => ServiceOutcome.raises ErrKind.fatal) [] false none []
      = { sent := [Sent.fallbackNotice], history := [] } :=
  ⟨trivial,
    c2_failure_leaves_history (fun _ => ServiceOutcome.raises ErrKind.fatal)
      [] false none [] trivial⟩

/-- Claim C3: evaluation of split_message at a failing input. With limit 3
and the text made of the line ab followed by the line cdef, the second chunk
returned is cdef, of length 4, which exceeds the limit — contradicting the
docstring of split_message and the specification. The over-limit chunk
arises because the flush branch of lines 135-138 stores a long line as the
current chunk without hard-splitting it. -/
theorem c3_code_evaluation :
    split_message ['a', 'b', '\n', 'c', 'd', 'e', 'f'] 3
      = [['a', 'b'], ['c', 'd', 'e', 'f']]
    ∧ ¬ ∀ c ∈ split_message ['a', 'b', '\n', 'c', 'd', 'e', 'f'] 3,
        c.length ≤ 3 := by decide

/-- Claim C4, counterexample: for the text consisting of the letter a
followed by a newline and limit 1, split_message returns the single chunk a,
and no re-insertion of the used separators can reproduce the original text —
the trailing newline is lost. -/
theorem c4_counterexample :
    ¬ Joins (split_message ['a', '\n'] 1) ['a', '\n'] := by
  have h : split_message ['a', '\n'] 1 = [['a']] := by decide
  rw [h]
  intro hj
  exact absurd (Joins_singleton hj) (by decide)

/-- Claim C4, amended: provided every newline-separated line of the text is
nonempty (the text has no leading, trailing, or consecutive newlines),
concatenating all chunks of split_message, re-inserting the separator used
at each boundary (a newline at a line-break boundary, nothing at a hard
split), reproduces the text exactly; and for text within the limit the
result is the single chunk equal to the text (the latter holds for all
text). -/
theorem c4_joins_of_no_empty_lines (text : Chars) (limit : Nat)
    (_hpos : 0 < limit) (hlines : ∀ l ∈ splitLines text, l ≠ []) :
    Joins (split_message text limit) text
    ∧ (text.length ≤ limit → split_message text limit = [text]) := by
  constructor
  · unfold split_message
    split_ifs with h
    · exact Joins.single text
    · have hj := splitLoop_joins_start limit (splitLines text)
        (splitLines_ne_nil text) hlines
      rwa [joinNL_splitLines] at hj
  · intro h
    simp [split_message, h]

theorem c4_joins_of_no_empty_lines_witness :
    (0 < 3 ∧ ∀ l ∈ splitLines ['a', 'b', '\n', 'c', 'd', 'e', 'f'], l ≠ [])
    ∧ Joins (split_message ['a', 'b', '\n', 'c', 'd', 'e', 'f'] 3)
        ['a', 'b', '\n', 'c', 'd', 'e', 'f'] :=
  ⟨⟨by decide, by decide⟩,
    (c4_joins_of_no_empty_lines ['a', 'b', '\n', 'c', 'd', 'e', 'f'] 3
      (by decide) (by decide)).1⟩

/-- Claim C5: for every sequence of append operations the code performs on a
conversation key (user and assistant turns only — the system prompt is only
ever inserted into the per-request copy, never stored), the history length
never exceeds the capacity 10; no system turn is ever stored, so a system
turn is never evicted by capacity pressure and the position-0 condition holds
vacuously; and when the deque is full the oldest stored turn is the one
evicted by the next append. -/
theorem c5_history_bounded (ops : List Msg)
    (hops : ∀ m ∈ ops, m.role ≠ Role.system) :
    (historyAfter ops).length ≤ 10
    ∧ (∀ m ∈ historyAfter ops, m.role ≠ Role.system)
    ∧ (∀ (h : List Msg) (m : Msg), h.length = 10 →
        dequeAppend 10 h m = h.drop 1 ++ [m]) := by
  have hinv := foldl_dequeAppend_inv ops [] (by simp) (by simp) hops
  refine ⟨hinv.1, hinv.2, ?_⟩
  intro h m hlen
  unfold dequeAppend
  rw [if_neg (by omega), hlen]

theorem c5_history_bounded_witness :
    (∀ m ∈ List.replicate 11
        ({ role := Role.user, content := MsgContent.text ['u'] } : Msg),
      m.role ≠ Role.system)
    ∧ (historyAfter (List.replicate 11
        { role := Role.user, content := MsgContent.text ['u'] })).length ≤ 10 :=
  ⟨by decide,
    (c5_history_bounded
      (List.replicate 11 { role := Role.user, content := MsgContent.text ['u'] })
      (by decide)).1⟩

/-- Claim C6, counterexample: the effect trace of a concrete dispatch
contains the outbound service call but no admission-gate acquisition at all —
src/main.py has no concurrency limiter, so the gate is not acquired before
the outbound call starts. -/
theorem c6_counterexample :
    Act.acquireGate ∉ dispatchTrace
        (fun _ => ServiceOutcome.raises ErrKind.fatal) [] false none [] 0
    ∧ Act.callService ∈ dispatchTrace
        (fun _ => ServiceOutcome.raises ErrKind.fatal) [] false none [] 0 := by
  decide

/-- Claim C6, amended: no admission gate exists in the code; every dispatch
issues its outbound completion call without acquiring any concurrency
limiter, so submissions are never suspended by an admission bound and the
number of concurrent in-flight calls is limited by nothing in the program. -/
theorem c6_no_admission_gate (service : List Msg → ServiceOutcome)
    (history : List Msg) (b : Bool) (ref : Option Chars)
    (parts : List ContentPart) (ticks : Nat) :
    Act.acquireGate ∉ dispatchTrace service history b ref parts ticks
    ∧ Act.callService ∈ dispatchTrace service history b ref parts ticks := by
  constructor
  · unfold dispatchTrace
    intro hmem
    rcases List.mem_append.mp hmem with h1 | h2
    · rcases List.mem_append.mp h1 with h3 | h4
      · rcases List.mem_append.mp h3 with h5 | h6
        · simp at h5
        · exact absurd (List.eq_of_mem_replicate h6) (by simp)
      · simp at h4
    · revert h2
      split_ifs
      · simp
      · intro h2
        rcases List.mem_append.mp h2 with h7 | h8
        · exact sendActs_no_gate _ h7
        · simp at h8
  · unfold dispatchTrace
    simp

/-- Claim C7: in the cancellation protocol of the typing-indicator task
(src/main.py lines 164-172 and 402-406), once the await of the cancelled
task has returned to the dispatcher, no further typing notification ever
occurs in any continuation of the schedule: a notification requires the task
to be running, the await returns only once the task is finished, and a
finished task never runs again. This covers both the success and the failure
path, since both run the same finally block before anything else happens. -/
theorem c7_no_notify_after_stop (pre post : List SigAct) (s : SigSt)
    (h : sigExec sigInit (pre ++ SigAct.stopReturn :: post) = some s) :
    SigAct.notifyTick ∉ post := by
  rw [sigExec_append] at h
  cases hpre : sigExec sigInit pre with
  | none => rw [hpre] at h; simp at h
  | some t =>
    rw [hpre] at h
    simp only [sigExec] at h
    cases hstep : sigStep t SigAct.stopReturn with
    | none => rw [hstep] at h; simp at h
    | some u =>
      rw [hstep] at h
      have hfin : u.typing = TStat.finished := by
        simp only [sigStep] at hstep
        split_ifs at hstep with hg
        cases hstep
        simpa using hg
      exact sigExec_finished_no_notify post u s hfin h

theorem c7_no_notify_after_stop_witness :
    sigExec sigInit [SigAct.notifyTick, SigAct.cancelCall,
        SigAct.cancelDelivered, SigAct.stopReturn]
      = some { typing := TStat.finished, stopReturned := true }
    ∧ SigAct.notifyTick ∉ ([] : List SigAct) :=
  ⟨by decide,
    c7_no_notify_after_stop
      [SigAct.notifyTick, SigAct.cancelCall, SigAct.cancelDelivered] []
      { typing := TStat.finished, stopReturned := true } (by decide)⟩

/-- Claim C8: when the completion service returns a response with zero
choices, generate_ai_response returns the empty reply after its single call
(no exception propagates), and the dispatcher sends the single fallback
notice instead of reply chunks, leaving the stored history unchanged. -/
theorem c8_empty_choices_fallback (history : List Msg) (b : Bool)
    (ref : Option Chars) (parts : List ContentPart) :
    generate_ai_response (fun _ => ServiceOutcome.returns [])
        (buildConversation history b ref parts) = ([], 1)
    ∧ dispatch (fun _ => ServiceOutcome.returns []) history b ref parts
      = { sent := [Sent.fallbackNotice], history := history } := by
  refine ⟨rfl, ?_⟩
  simp [dispatch, generate_ai_response]

/-- Claim C9, counterexample: the typing-indicator loop does not swallow
every error of the notify callback — a network error raised by
channel.trigger_typing escapes the loop, whose only except clause is for
asyncio.CancelledError (src/main.py lines 170-172). -/
theorem c9_counterexample : ¬ swallowsNotifyErrors := by
  intro h
  have hc := h [some ExcKind.networkError]
  simp [typingLoopRun] at hc

/-- Claim C9, amended: the loop swallows only the cancellation signal: when
every notify invocation succeeds, the loop ends cleanly at cancellation, but
the first exception of any other kind raised by the notify callback
terminates the loop by propagating out of it (reaching the dispatcher that
awaits the task, where only the outermost catch-all handler stops it). -/
theorem c9_only_cancellation_swallowed (ticks : List (Option ExcKind))
    (e : ExcKind) (rest : List (Option ExcKind))
    (hok : ∀ t ∈ ticks, t = none) :
    typingLoopRun (ticks ++ some e :: rest) = LoopExit.raised e
    ∧ typingLoopRun ticks = LoopExit.cancelledClean := by
  induction ticks with
  | nil => exact ⟨rfl, rfl⟩
  | cons t ts ih =>
    have ht : t = none := hok t (by simp)
    subst ht
    have hok2 : ∀ x ∈ ts, x = none := fun x hx => hok x (by simp [hx])
    simpa [typingLoopRun] using ih hok2

theorem c9_only_cancellation_swallowed_witness :
    (∀ t ∈ [(none : Option ExcKind)], t = none)
    ∧ typingLoopRun [none, some ExcKind.networkError]
      = LoopExit.raised ExcKind.networkError :=
  ⟨by decide,
    (c9_only_cancellation_swallowed [none] ExcKind.networkError [] (by decide)).1⟩

/-- Claim C10: generate_ai_response is total over service outcomes — it
always performs exactly one attempt, and whatever exception the service
raises (rate limited, transient, or fatal alike) it never propagates:
every raised error is mapped to the same empty-string result. -/
theorem c10_total_single_attempt (service : List Msg → ServiceOutcome)
    (conversation : List Msg) :
    (generate_ai_response service conversation).2 = 1
    ∧ (∀ e, service conversation = ServiceOutcome.raises e →
        generate_ai_response service conversation = ([], 1)) := by
  constructor
  · rcases hsv : service conversation with e | cs
    · simp [generate_ai_response, hsv]
    · cases cs <;> simp [generate_ai_response, hsv]
  · intro e he
    simp [generate_ai_response, he]

theorem c10_total_single_attempt_witness :
    generate_ai_response (fun _ => ServiceOutcome.raises ErrKind.fatal) []
      = ([], 1) :=
  (c10_total_single_attempt (fun _ => ServiceOutcome.raises ErrKind.fatal) []).2
    ErrKind.fatal rfl



